import Mathlib

/-!
Verification development for the folder-diff-restore repository.

The repository's two core operations are modelled over an explicit
filesystem-tree datatype:

* `createDiff` (src/createDiff.ts, final version in prompts/original.md)
  consumes the external comparator's classified entry list and materializes
  a diff folder plus a removal manifest.
* `restoreDiff` (src/restoreDiff.ts) reads the manifest, deletes the listed
  paths, then recursively replays the diff folder onto the target tree.

The trusted I/O layer (fs-extra) is modelled at its interface boundary:
paths are segment lists, symlink targets are segment lists relative to the
link's parent directory, and symlink-chain resolution is fuel-bounded (the
kernel's 40-hop limit).  Intermediate path components are modelled as real
directories (the code only ever creates real directories for intermediate
components); final-component symlink semantics — the part the code's
behaviour hinges on — is modelled exactly: `fs.pathExists` follows links
(a dangling link reports absent), `fs.lstat` does not, `fs.symlink` fails
EEXIST on any existing node, and `fs.copyFile` opens (hence follows) the
destination link.  The manifest is a regular file whose contents carry the
structured JSON record, matching the spec's trusted structured read/write
primitive.
-/

namespace FolderDiff

/-- A path relative to a tree root, as a list of name segments. -/
abbrev Path := List String

/-- File contents: raw bytes, or the structured JSON manifest record.
The `removed` field may be absent, mirroring `metadata.removed || []`. -/
inductive FileData where
  | bytes (s : String)
  | jsonManifest (removed : Option (List Path))
deriving DecidableEq

mutual
/-- A filesystem node: regular file, symlink (target kept as the raw,
unresolved link string, modelled as segments relative to the link's parent
directory), or directory. -/
inductive FSNode where
  | file (data : FileData)
  | symlink (target : Path)
  | dir (entries : FSEntries)
/-- Ordered directory entries (readdir order = insertion order). -/
inductive FSEntries where
  | nil
  | cons (name : String) (node : FSNode) (rest : FSEntries)
end

/-- Flat observation of a node's kind, used to state properties without
comparing whole subtrees. -/
inductive NodeKind where
  | fileK (data : FileData)
  | dirK
  | symlinkK (target : Path)
deriving DecidableEq

def nodeKind : FSNode → NodeKind
  | .file d => .fileK d
  | .symlink t => .symlinkK t
  | .dir _ => .dirK

/-- The four-way classification reported by the dir-compare comparator. -/
inductive EntryState where
  | left | right | distinct | equal
deriving DecidableEq

/-- Entry types reported by the comparator (`other` covers every value the
code does not branch on, e.g. `broken-link` or a missing field). -/
inductive EntryType where
  | file | directory | symbolicLink | other
deriving DecidableEq

/-- One classified entry of the comparator's diffSet.  `none` for a name or
for `relativePath` models a missing or empty (JavaScript-falsy) value;
`some []` is the root-level relative path. -/
structure Entry where
  state : EntryState
  name1 : Option String
  name2 : Option String
  relativePath : Option Path
  type1 : EntryType
  type2 : EntryType
deriving DecidableEq

/-- The comparator's result; `diffSet` is optional in dir-compare's API. -/
structure CompareResult where
  diffSet : Option (List Entry)
deriving DecidableEq

/-- Errors: comparator-level failures plus the I/O failures the modelled
filesystem primitives can raise, tagged with the offending path. -/
inductive Err where
  | comparatorFailed (msg : String)
  | emptyResult
  | invalidEntry (e : Entry)
  | enoent (p : Path)
  | eexist (p : Path)
  | eisdir (p : Path)
  | enotdir (p : Path)
  | einval (p : Path)
  | eloop (p : Path)
  | metadataError (p : Path)
deriving DecidableEq

/-- Comparison-class errors: comparator failure, empty comparison result,
or a structurally invalid entry. -/
def Err.isComparison : Err → Bool
  | .comparatorFailed _ => true
  | .emptyResult => true
  | .invalidEntry _ => true
  | _ => false

/-- Replay-phase actions of `restoreDiff`'s recursive walk. -/
inductive ReplayEvent where
  | symlinkE (p : Path) (target : Path)
  | dirE (p : Path)
  | fileE (p : Path)
deriving DecidableEq

/-- Observable actions of one `restoreDiff` call, in execution order. -/
inductive Event where
  | removal (p : Path)
  | replay (r : ReplayEvent)
deriving DecidableEq

def Event.isRemoval : Event → Bool
  | .removal _ => true
  | .replay _ => false

def FSEntries.find : FSEntries → String → Option FSNode
  | .nil, _ => none
  | .cons n node rest, name => if n = name then some node else rest.find name

def FSEntries.erase : FSEntries → String → FSEntries
  | .nil, _ => .nil
  | .cons n node rest, name =>
      if n = name then rest.erase name else .cons n node (rest.erase name)

/-- Replace the entry named `name` (or append it), keeping readdir order. -/
def FSEntries.set : FSEntries → String → FSNode → FSEntries
  | .nil, name, node => .cons name node .nil
  | .cons n nd rest, name, node =>
      if n = name then .cons n node rest else .cons n nd (rest.set name node)

def entriesOf : List (String × FSNode) → FSEntries
  | [] => .nil
  | (n, v) :: rest => .cons n v (entriesOf rest)

/-- Link-aware lookup of the node at a path (no symlink following at all;
intermediate components must be directories). -/
def lookupNode : FSNode → Path → Option FSNode
  | node, [] => some node
  | .dir es, n :: rest =>
      match es.find n with
      | some child => lookupNode child rest
      | none => none
  | _, _ :: _ => none

/-- fs.lstat as an observation: the kind of the node at the path itself. -/
def lstat (fs : FSNode) (p : Path) : Option NodeKind :=
  (lookupNode fs p).map nodeKind

/-- fs.lstat as a fallible operation (ENOENT when the path is absent). -/
def lstatE (fs : FSNode) (p : Path) : Except Err NodeKind :=
  match lstat fs p with
  | some k => .ok k
  | none => .error (.enoent p)

/-- fs.pathExists: link-following existence.  A symlink is chased (target
interpreted relative to the link's parent), so a dangling symlink reports
`false`.  Fuel bounds symlink chains, as the kernel's 40-hop limit does. -/
def pathExistsFuel : Nat → FSNode → Path → Bool
  | 0, _, _ => false
  | fuel + 1, fs, p =>
    match lookupNode fs p with
    | some (.symlink t) => pathExistsFuel fuel fs (p.dropLast ++ t)
    | some _ => true
    | none => false

def pathExists (fs : FSNode) (p : Path) : Bool := pathExistsFuel 40 fs p

/-- fs.remove (rimraf): recursively delete the node at the path; removing
an absent path, or the root itself, is a no-op in the model.  A symlink is
unlinked itself, never its pointee. -/
def removePath : FSNode → Path → FSNode
  | fs, [] => fs
  | .dir es, n :: rest =>
      match rest with
      | [] => .dir (es.erase n)
      | _ :: _ =>
        match es.find n with
        | some child => .dir (es.set n (removePath child rest))
        | none => .dir es
  | fs, _ :: _ => fs

/-- Write a node at a path whose parent chain must already exist as real
directories (ENOENT/ENOTDIR otherwise); an existing entry is replaced. -/
def writeNodeAt : FSNode → Path → FSNode → Except Err FSNode
  | _, [], _ => .error (.eisdir [])
  | .dir es, n :: rest, node =>
      match rest with
      | [] => .ok (.dir (es.set n node))
      | _ :: _ =>
        match es.find n with
        | some child => (writeNodeAt child rest node).map (fun c => .dir (es.set n c))
        | none => .error (.enoent (n :: rest))
  | _, n :: rest, _ => .error (.enotdir (n :: rest))

/-- fs.ensureDir (mkdirp): create the directory and missing parents; a
non-directory occupying any component is an error. -/
def ensureDir : FSNode → Path → Except Err FSNode
  | .dir es, [] => .ok (.dir es)
  | _, [] => .error (.enotdir [])
  | .dir es, n :: rest =>
      match es.find n with
      | some child => (ensureDir child rest).map (fun c => .dir (es.set n c))
      | none => (ensureDir (.dir .nil) rest).map (fun c => .dir (es.set n c))
  | _, n :: rest => .error (.enotdir (n :: rest))

/-- fs.symlink: fails EEXIST if anything (even a dangling link) occupies
the destination path; otherwise creates the link, never following it. -/
def symlinkCreate (fs : FSNode) (target : Path) (dest : Path) : Except Err FSNode :=
  match lookupNode fs dest with
  | some _ => .error (.eexist dest)
  | none => writeNodeAt fs dest (.symlink target)

/-- fs.readlink: the raw target string of the link at the path. -/
def readlink (fs : FSNode) (p : Path) : Except Err Path :=
  match lookupNode fs p with
  | some (.symlink t) => .ok t
  | some _ => .error (.einval p)
  | none => .error (.enoent p)

/-- Resolution performed by opening a path for writing: symlinks at the
final component are chased (fuel-bounded); a directory is EISDIR. -/
def resolveForOpen : Nat → FSNode → Path → Except Err Path
  | 0, _, p => .error (.eloop p)
  | fuel + 1, fs, p =>
    match lookupNode fs p with
    | some (.symlink t) => resolveForOpen fuel fs (p.dropLast ++ t)
    | some (.dir _) => .error (.eisdir p)
    | some (.file _) => .ok p
    | none => .ok p

/-- fs.copyFile with the destination side made explicit: opening the
destination follows a symlink there, so the bytes land at the link's
resolved target (created if the link was dangling). -/
def copyFileTo (fs : FSNode) (dest : Path) (data : FileData) : Except Err FSNode :=
  (resolveForOpen 40 fs dest).bind (fun q => writeNodeAt fs q (.file data))

/-- fs.copy with dereference false: copy the node (symlinks inside are
preserved verbatim because the whole subtree is copied as-is). -/
def fsCopy (srcFs : FSNode) (src : Path) (destFs : FSNode) (dest : Path) :
    Except Err FSNode :=
  match lookupNode srcFs src with
  | some node => writeNodeAt destFs dest node
  | none => .error (.enoent src)

/-- fs.readJson of the manifest, via the spec's trusted structured-record
read: a bytes file is a malformed manifest (MetadataError). -/
def readJsonManifest (fs : FSNode) (p : Path) : Except Err (Option (List Path)) :=
  match lookupNode fs p with
  | some (.file (.jsonManifest r)) => .ok r
  | some _ => .error (.metadataError p)
  | none => .error (.enoent p)

/-- The reserved manifest name at the diff folder's root. -/
def reservedName : String := "__folder-diff-metadata.json"

/-- Phase 1 of restoreDiff (src/restoreDiff.ts lines 20-24): read the
removal list if the metadata file exists, else the empty list.  The
metadata path is interpreted inside the diff tree (the code's default is
`path.join(diffFolder, "__folder-diff-metadata.json")`; caller-supplied
paths outside the diff folder are out of modelled scope). -/
def readRemoved (diffFolder : FSNode) (metadataPath : Path) : Except Err (List Path) :=
  if pathExists diffFolder metadataPath then
    (readJsonManifest diffFolder metadataPath).map (fun r => r.getD [])
  else .ok []

/-- One step of the removal loop (src/restoreDiff.ts lines 27-33):
`if (await fs.pathExists(targetPath)) await fs.remove(targetPath)`. -/
def removeStep (fs : FSNode) (p : Path) : FSNode :=
  if pathExists fs p then removePath fs p else fs

/-- Phase 2 of restoreDiff: the removal loop, also recording which listed
paths were actually removed (the code logs exactly those). -/
def applyRemovals (fs : FSNode) (ps : List Path) : FSNode × List Path :=
  ps.foldl
    (fun acc p => (removeStep acc.1 p, if pathExists acc.1 p then acc.2 ++ [p] else acc.2))
    (fs, [])

mutual
/-- Replay one diff-folder node onto the target tree (the body of the loop
in src/restoreDiff.ts lines 46-70), dispatching on the entry's own
link-aware type.  Note the walk applies no exclusion: the `filter` closure
defined at lines 37-41 of the source is never invoked. -/
def walkNode (node : FSNode) (destPath : Path) (fs : FSNode) (evs : List ReplayEvent) :
    Except Err (FSNode × List ReplayEvent) :=
  match node with
  | .symlink symlinkTarget => do
      let fs1 ← ensureDir fs destPath.dropLast
      let fs2 := if pathExists fs1 destPath then removePath fs1 destPath else fs1
      let fs3 ← symlinkCreate fs2 symlinkTarget destPath
      .ok (fs3, evs ++ [.symlinkE destPath symlinkTarget])
  | .dir es => do
      let fs1 ← ensureDir fs destPath
      walkEntries es destPath fs1 (evs ++ [.dirE destPath])
  | .file data => do
      let fs1 ← ensureDir fs destPath.dropLast
      let fs2 ← copyFileTo fs1 destPath data
      .ok (fs2, evs ++ [.fileE destPath])
/-- Replay a directory's entries in readdir order (the `walk` recursion of
src/restoreDiff.ts lines 44-71). -/
def walkEntries (es : FSEntries) (relDir : Path) (fs : FSNode) (evs : List ReplayEvent) :
    Except Err (FSNode × List ReplayEvent) :=
  match es with
  | .nil => .ok (fs, evs)
  | .cons name node rest => do
      let r ← walkNode node (relDir ++ [name]) fs evs
      walkEntries rest relDir r.1 r.2
end

/-- The replay phase of restoreDiff in isolation: walk the diff folder's
root entries (readdir on a non-directory fails) onto the given target. -/
def walkEntriesOf (diff target : FSNode) : Except Err (FSNode × List ReplayEvent) :=
  match diff with
  | .dir es => walkEntries es [] target []
  | _ => .error (.enotdir [])

/-- restoreDiff (src/restoreDiff.ts): read the manifest, delete the listed
paths that exist (link-following check), then walk the diff folder and
replay every entry onto the target tree.  Returns the final target tree
and the trace of performed actions in order. -/
def restoreDiff (targetFolder diffFolder : FSNode) (metadataPath : Path) :
    Except Err (FSNode × List Event) := do
  let removedItems ← readRemoved diffFolder metadataPath
  let st := applyRemovals targetFolder removedItems
  (walkEntriesOf diffFolder st.1).map
    (fun r => (r.1, st.2.map Event.removal ++ r.2.map Event.replay))

/-- The `name1 || name2` tie-break of createDiff. -/
def eitherNameOf (e : Entry) : Option String := e.name1 <|> e.name2

/-- The structural-validity check of createDiff (original.md lines 660-666):
an entry is invalid when it misses its relative-path context or both names. -/
def isInvalidEntry (e : Entry) : Bool :=
  e.relativePath.isNone || (eitherNameOf e).isNone

/-- compareDirectories (src/compareDirectories.ts): invoke the external
comparator, wrapping a failure in an error.  The comparator itself is out
of scope, so its outcome is the input. -/
def compareDirectories (c : Except String CompareResult) : Except Err CompareResult :=
  match c with
  | .ok r => .ok r
  | .error m => .error (.comparatorFailed m)

/-- isSymlink helper (original.md lines 732-740): lstat the path, and — in
a try/catch — swallow any lstat failure, substituting `false`. -/
def isSymlink (fs : FSNode) (p : Path) : Bool :=
  match lstatE fs p with
  | .ok (.symlinkK _) => true
  | .ok _ => false
  | .error _ => false

/-- The materialization block shared verbatim by the `right` and
`distinct` branches of createDiff (original.md lines 685-711): ensure the
parent directory inside the diff folder, then recreate a symlink read from
B, or copy a directory or file from B preserving nested symlinks. -/
def materializeFromB (folderB diffFs : FSNode) (relativeFilePath : Path)
    (type2 : EntryType) : Except Err FSNode := do
  let d1 ← ensureDir diffFs relativeFilePath.dropLast
  if isSymlink folderB relativeFilePath then do
    let symlinkTarget ← readlink folderB relativeFilePath
    symlinkCreate d1 symlinkTarget relativeFilePath
  else if type2 = EntryType.directory then
    fsCopy folderB relativeFilePath d1 relativeFilePath
  else if type2 = EntryType.file then
    fsCopy folderB relativeFilePath d1 relativeFilePath
  else
    .ok d1

/-- Processing of one classified entry by createDiff (original.md lines
657-717): validate, then dispatch on the four-way classification.  The
accumulator carries the diff tree under construction and the removal list. -/
def processEntry (folderB : FSNode) (acc : FSNode × List Path) (e : Entry) :
    Except Err (FSNode × List Path) :=
  match eitherNameOf e, e.relativePath with
  | some eitherName, some rp =>
    let relativeFilePath := rp ++ [eitherName]
    match e.state with
    | .left => .ok (acc.1, acc.2 ++ [relativeFilePath])
    | .right =>
        (materializeFromB folderB acc.1 relativeFilePath e.type2).map (fun d => (d, acc.2))
    | .distinct =>
        (materializeFromB folderB acc.1 relativeFilePath e.type2).map (fun d => (d, acc.2))
    | .equal => .ok acc
  | _, _ => .error (.invalidEntry e)

/-- The entry loop of createDiff, starting from the freshly reset (empty)
diff folder and an empty removal list. -/
def processEntries (folderB : FSNode) (entries : List Entry) :
    Except Err (FSNode × List Path) :=
  entries.foldlM (processEntry folderB) (FSNode.dir .nil, [])

/-- Serialization of the removal manifest to the diff folder's root
(original.md lines 719-724). -/
def writeManifest (diffFs : FSNode) (removedItems : List Path) : Except Err FSNode :=
  writeNodeAt diffFs [reservedName] (.file (.jsonManifest (some removedItems)))

/-- createDiff (final version, original.md lines 629-725): reset the diff
folder, run the comparator (folderA only feeds the comparator, so it
enters the model through the comparator outcome), fail on a missing
diffSet, process every entry, and write the manifest only when the removal
list is non-empty.  Returns the diff tree and the removal list. -/
def createDiff (folderB : FSNode) (comparison : Except String CompareResult) :
    Except Err (FSNode × List Path) := do
  let result ← compareDirectories comparison
  match result.diffSet with
  | none => .error .emptyResult
  | some entries => do
      let acc ← processEntries folderB entries
      if acc.2.isEmpty then .ok acc
      else do
        let d ← writeManifest acc.1 acc.2
        .ok (d, acc.2)

/-- The claim C7 reads: "build fails with an error ... exactly when the
comparator itself fails or when some classified entry is structurally
invalid".  This spec-following definition states that sentence verbatim,
to be compared with the behaviour of `createDiff`. -/
def claimC7Statement (folderB : FSNode) (cmp : Except String CompareResult) : Prop :=
  ((createDiff folderB cmp).isOk = false) ↔
    ((∃ m, cmp = .error m) ∨
     (∃ r entries e, cmp = .ok r ∧ r.diffSet = some entries ∧ e ∈ entries ∧
        isInvalidEntry e = true))

/-- Tree A of the spec's concrete scenario (section 8). -/
def treeA : FSNode := .dir (entriesOf
  [("file1.txt", .file (.bytes "Original content")),
   ("file2.txt", .file (.bytes "To be deleted"))])

/-- Tree B of the spec's concrete scenario (section 8). -/
def treeB : FSNode := .dir (entriesOf
  [("file1.txt", .file (.bytes "Modified content")),
   ("file3.txt", .file (.bytes "New file"))])

/-- The comparator's classification of the spec's concrete scenario:
file1.txt modified, file2.txt removed, file3.txt added. -/
def entriesAB : List Entry :=
  [⟨.distinct, some "file1.txt", some "file1.txt", some [], .file, .file⟩,
   ⟨.left, some "file2.txt", none, some [], .file, .other⟩,
   ⟨.right, none, some "file3.txt", some [], .other, .file⟩]

def cmpAB : Except String CompareResult := .ok ⟨some entriesAB⟩

/-- The materialization result of the concrete scenario before the
manifest write. -/
def diffC6 : FSNode := .dir (entriesOf
  [("file1.txt", .file (.bytes "Modified content")),
   ("file3.txt", .file (.bytes "New file"))])

/-- The full diff folder of the concrete scenario, manifest included. -/
def diffC6Full : FSNode := .dir (entriesOf
  [("file1.txt", .file (.bytes "Modified content")),
   ("file3.txt", .file (.bytes "New file")),
   (reservedName, .file (.jsonManifest (some [["file2.txt"]])))])

/-- A diff folder holding nothing but a removal manifest. -/
def diffOnlyManifest : FSNode :=
  .dir (.cons reservedName (.file (.jsonManifest (some [["x.txt"]]))) .nil)

/-- A diff folder holding one symlink whose target does not exist in the
target tree after replay (a dangling link). -/
def diffDangling : FSNode :=
  .dir (.cons "link.txt" (.symlink ["missing.txt"]) .nil)

/-- A target tree holding a dangling symlink at a path listed for removal. -/
def targetDangling4 : FSNode :=
  .dir (.cons "gone.txt" (.symlink ["nowhere.txt"]) .nil)

/-- A diff folder whose manifest lists gone.txt for removal. -/
def diffRemove4 : FSNode :=
  .dir (.cons reservedName (.file (.jsonManifest (some [["gone.txt"]]))) .nil)

/-- Witness tree for the amended removal semantics. -/
def treeW4 : FSNode := .dir (.cons "a.txt" (.file (.bytes "x")) .nil)

/-- Tree A for the symlink-fidelity scenario: a dangling symlink occupies
the path that tree B holds a (modified) symlink at. -/
def treeA5 : FSNode := .dir (.cons "link.txt" (.symlink ["missing.txt"]) .nil)

def treeB5 : FSNode := .dir (.cons "link.txt" (.symlink ["other.txt"]) .nil)

def cmp5 : Except String CompareResult := .ok ⟨some
  [⟨.distinct, some "link.txt", some "link.txt", some [], .symbolicLink, .symbolicLink⟩]⟩

/-- A comparator result with one added entry of unrecognized type whose
source path is absent from tree B (so lstat on it fails). -/
def cmpC8 : Except String CompareResult := .ok ⟨some
  [⟨.right, none, some "ghost.txt", some [], .other, .other⟩]⟩

/-- Witness entry for the amended isSymlink error-swallowing property. -/
def entC8 : Entry := ⟨.right, none, some "ghost.txt", some [], .other, .other⟩

/-- Target tree for the ordering witness: one file to be removed. -/
def treeT9 : FSNode := .dir (.cons "old.txt" (.file (.bytes "x")) .nil)

/-- Diff folder for the ordering witness: a manifest removing old.txt plus
one added file. -/
def diffD9 : FSNode := .dir
  (.cons reservedName (.file (.jsonManifest (some [["old.txt"]])))
    (.cons "a.txt" (.file (.bytes "hi")) .nil))

/-- The final tree of the ordering witness run (the walk also copies the
manifest file, since the code's exclusion filter is never applied). -/
def treeT9Final : FSNode := .dir
  (.cons reservedName (.file (.jsonManifest (some [["old.txt"]])))
    (.cons "a.txt" (.file (.bytes "hi")) .nil))

/-- The trace of the ordering witness run. -/
def traceT9 : List Event :=
  [.removal ["old.txt"], .replay (.fileE [reservedName]), .replay (.fileE ["a.txt"])]

/-- Target tree for the write-through witness: a dangling symlink. -/
def treeT10 : FSNode := .dir (.cons "link.txt" (.symlink ["data.txt"]) .nil)

/-- Diff folder for the write-through witness: a regular file at the
symlink's path. -/
def diffD10 : FSNode := .dir (.cons "link.txt" (.file (.bytes "hello")) .nil)

/-- Final tree of the write-through witness: the symlink survives and the
bytes land at the link's target. -/
def treeT10Final : FSNode := .dir
  (.cons "link.txt" (.symlink ["data.txt"])
    (.cons "data.txt" (.file (.bytes "hello")) .nil))

theorem find_set_self : (es : FSEntries) → (n : String) → (v : FSNode) →
    (es.set n v).find n = some v
  | .nil, n, v => by simp [FSEntries.set, FSEntries.find]
  | .cons m nd rest, n, v => by
    by_cases h : m = n
    · subst h; simp [FSEntries.set, FSEntries.find]
    · simp [FSEntries.set, FSEntries.find, h, find_set_self rest n v]

theorem find_set_other : (es : FSEntries) → (n m : String) → (v : FSNode) → m ≠ n →
    (es.set n v).find m = es.find m
  | .nil, n, m, v, hm => by
    simp [FSEntries.set, FSEntries.find, Ne.symm hm]
  | .cons k nd rest, n, m, v, hm => by
    by_cases hk : k = n
    · subst hk
      simp [FSEntries.set, FSEntries.find, Ne.symm hm]
    · simp [FSEntries.set, FSEntries.find, hk, find_set_other rest n m v hm]

theorem find_erase_self : (es : FSEntries) → (n : String) →
    (es.erase n).find n = none
  | .nil, n => by simp [FSEntries.erase, FSEntries.find]
  | .cons m nd rest, n => by
    by_cases h : m = n
    · subst h; simp [FSEntries.erase, find_erase_self rest]
    · simp [FSEntries.erase, FSEntries.find, h, find_erase_self rest n]

theorem lookup_removePath_self (p : Path) (fs : FSNode) (hp : p ≠ []) :
    lookupNode (removePath fs p) p = none := by
  induction p generalizing fs with
  | nil => exact absurd rfl hp
  | cons n rest ih =>
    cases fs with
    | file d => cases rest <;> simp [removePath, lookupNode]
    | symlink t => cases rest <;> simp [removePath, lookupNode]
    | dir es =>
      cases rest with
      | nil => simp [removePath, lookupNode, find_erase_self]
      | cons r rs =>
        cases hfind : es.find n with
        | some child =>
          simp only [removePath, hfind, lookupNode, find_set_self]
          exact ih child (by simp)
        | none => simp [removePath, hfind, lookupNode]

theorem lookupNode_append (q s : Path) (fs : FSNode) :
    lookupNode fs (q ++ s) = (lookupNode fs q).bind (fun nd => lookupNode nd s) := by
  induction q generalizing fs with
  | nil => simp [lookupNode]
  | cons n q' ih =>
    cases fs with
    | file d => simp [lookupNode]
    | symlink t => simp [lookupNode]
    | dir es =>
      cases hfind : es.find n with
      | some child => simp [lookupNode, hfind, ih]
      | none => simp [lookupNode, hfind]

theorem lstat_writeNodeAt_self (q : Path) (fs fs2 v : FSNode)
    (h : writeNodeAt fs q v = .ok fs2) : lstat fs2 q = some (nodeKind v) := by
  induction q generalizing fs fs2 with
  | nil => simp [writeNodeAt] at h
  | cons n rest ih =>
    cases fs with
    | file d => simp [writeNodeAt] at h
    | symlink t => simp [writeNodeAt] at h
    | dir es =>
      cases rest with
      | nil =>
        simp only [writeNodeAt, Except.ok.injEq] at h
        subst h
        simp [lstat, lookupNode, find_set_self]
      | cons r rs =>
        cases hfind : es.find n with
        | some child =>
          simp only [writeNodeAt, hfind] at h
          cases hw : writeNodeAt child (r :: rs) v with
          | ok c =>
            rw [hw] at h
            simp only [Except.map, Except.ok.injEq] at h
            subst h
            simpa [lstat, lookupNode, find_set_self] using ih child c hw
          | error e => rw [hw] at h; simp [Except.map] at h
        | none => simp [writeNodeAt, hfind] at h

theorem lstat_writeNodeAt_other (q : Path) (fs fs2 v : FSNode) (p : Path)
    (h : writeNodeAt fs q v = .ok fs2) (hnp : ∀ s, p ≠ q ++ s) :
    lstat fs2 p = lstat fs p := by
  induction q generalizing fs fs2 p with
  | nil => simp [writeNodeAt] at h
  | cons n rest ih =>
    cases fs with
    | file d => simp [writeNodeAt] at h
    | symlink t => simp [writeNodeAt] at h
    | dir es =>
      cases rest with
      | nil =>
        simp only [writeNodeAt, Except.ok.injEq] at h
        subst h
        cases p with
        | nil => simp [lstat, lookupNode, nodeKind]
        | cons m ps =>
          by_cases hm : m = n
          · subst hm
            exact absurd rfl (hnp ps)
          · simp [lstat, lookupNode, find_set_other es n m v hm]
      | cons r rs =>
        cases hfind : es.find n with
        | some child =>
          simp only [writeNodeAt, hfind] at h
          cases hw : writeNodeAt child (r :: rs) v with
          | ok c =>
            rw [hw] at h
            simp only [Except.map, Except.ok.injEq] at h
            subst h
            cases p with
            | nil => simp [lstat, lookupNode, nodeKind]
            | cons m ps =>
              by_cases hm : m = n
              · subst hm
                have hnp' : ∀ s, ps ≠ (r :: rs) ++ s := by
                  intro s hs
                  exact hnp s (by simp [hs])
                simpa [lstat, lookupNode, find_set_self, hfind] using ih child c ps hw hnp'
              · simp [lstat, lookupNode, find_set_other es n m c hm]
          | error e => rw [hw] at h; simp [Except.map] at h
        | none => simp [writeNodeAt, hfind] at h

theorem except_bind_ok {α β : Type} (a : α) (f : α → Except Err β) :
    (Except.ok a >>= f) = f a := rfl

theorem except_bind_err {α β : Type} (e : Err) (f : α → Except Err β) :
    ((Except.error e : Except Err α) >>= f) = .error e := rfl

theorem except_map_ok {α β : Type} (a : α) (f : α → β) :
    (Except.ok a : Except Err α).map f = .ok (f a) := rfl

theorem except_map_err {α β : Type} (e : Err) (f : α → β) :
    (Except.error e : Except Err α).map f = .error e := rfl

theorem writeNodeAt_err : (fs : FSNode) → (q : Path) → (v : FSNode) → (e : Err) →
    writeNodeAt fs q v = .error e → e.isComparison = false
  | fs, [], v, e, h => by
      cases fs <;>
        (simp only [writeNodeAt, Except.error.injEq] at h; subst h; rfl)
  | .file d, n :: rest, v, e, h => by
      simp only [writeNodeAt, Except.error.injEq] at h; subst h; rfl
  | .symlink t, n :: rest, v, e, h => by
      simp only [writeNodeAt, Except.error.injEq] at h; subst h; rfl
  | .dir es, n :: rest, v, e, h => by
      cases rest with
      | nil => simp [writeNodeAt] at h
      | cons r rs =>
        cases hfind : es.find n with
        | some child =>
          simp only [writeNodeAt, hfind] at h
          cases hw : writeNodeAt child (r :: rs) v with
          | ok c => rw [hw] at h; simp [except_map_ok] at h
          | error e0 =>
            rw [hw] at h
            simp only [except_map_err, Except.error.injEq] at h
            subst h
            exact writeNodeAt_err child (r :: rs) v e0 hw
        | none =>
          simp only [writeNodeAt, hfind, Except.error.injEq] at h
          subst h; rfl

theorem ensureDir_err : (fs : FSNode) → (q : Path) → (e : Err) →
    ensureDir fs q = .error e → e.isComparison = false
  | .dir es, [], e, h => by simp [ensureDir] at h
  | .file d, [], e, h => by
      simp only [ensureDir, Except.error.injEq] at h; subst h; rfl
  | .symlink t, [], e, h => by
      simp only [ensureDir, Except.error.injEq] at h; subst h; rfl
  | .file d, n :: rest, e, h => by
      simp only [ensureDir, Except.error.injEq] at h; subst h; rfl
  | .symlink t, n :: rest, e, h => by
      simp only [ensureDir, Except.error.injEq] at h; subst h; rfl
  | .dir es, n :: rest, e, h => by
      cases hfind : es.find n with
      | some child =>
        simp only [ensureDir, hfind] at h
        cases hw : ensureDir child rest with
        | ok c => rw [hw] at h; simp [except_map_ok] at h
        | error e0 =>
          rw [hw] at h
          simp only [except_map_err, Except.error.injEq] at h
          subst h
          exact ensureDir_err child rest e0 hw
      | none =>
        simp only [ensureDir, hfind] at h
        cases hw : ensureDir (.dir .nil) rest with
        | ok c => rw [hw] at h; simp [except_map_ok] at h
        | error e0 =>
          rw [hw] at h
          simp only [except_map_err, Except.error.injEq] at h
          subst h
          exact ensureDir_err (.dir .nil) rest e0 hw

theorem readlink_err (fs : FSNode) (p : Path) (e : Err)
    (h : readlink fs p = .error e) : e.isComparison = false := by
  unfold readlink at h
  cases hl : lookupNode fs p with
  | some nd =>
    cases nd <;> rw [hl] at h <;> simp only [Except.error.injEq] at h <;>
      (first | (subst h; rfl) | exact absurd h (by simp))
  | none =>
    rw [hl] at h
    simp only [Except.error.injEq] at h
    subst h; rfl

theorem symlinkCreate_err (fs : FSNode) (t dest : Path) (e : Err)
    (h : symlinkCreate fs t dest = .error e) : e.isComparison = false := by
  unfold symlinkCreate at h
  cases hl : lookupNode fs dest with
  | some nd =>
    rw [hl] at h
    simp only [Except.error.injEq] at h
    subst h; rfl
  | none =>
    rw [hl] at h
    exact writeNodeAt_err fs dest (.symlink t) e h

theorem fsCopy_err (srcFs : FSNode) (src : Path) (destFs : FSNode) (dest : Path) (e : Err)
    (h : fsCopy srcFs src destFs dest = .error e) : e.isComparison = false := by
  unfold fsCopy at h
  cases hl : lookupNode srcFs src with
  | some nd =>
    rw [hl] at h
    exact writeNodeAt_err destFs dest nd e h
  | none =>
    rw [hl] at h
    simp only [Except.error.injEq] at h
    subst h; rfl

theorem resolveForOpen_err : (fuel : Nat) → (fs : FSNode) → (p : Path) → (e : Err) →
    resolveForOpen fuel fs p = .error e → e.isComparison = false
  | 0, fs, p, e, h => by
      simp only [resolveForOpen, Except.error.injEq] at h; subst h; rfl
  | fuel + 1, fs, p, e, h => by
      simp only [resolveForOpen] at h
      cases hl : lookupNode fs p with
      | some nd =>
        cases nd with
        | file d => rw [hl] at h; simp at h
        | symlink t =>
          rw [hl] at h
          exact resolveForOpen_err fuel fs (p.dropLast ++ t) e h
        | dir es =>
          rw [hl] at h
          simp only [Except.error.injEq] at h
          subst h; rfl
      | none => rw [hl] at h; simp at h

theorem copyFileTo_err (fs : FSNode) (dest : Path) (data : FileData) (e : Err)
    (h : copyFileTo fs dest data = .error e) : e.isComparison = false := by
  unfold copyFileTo at h
  cases hr : resolveForOpen 40 fs dest with
  | ok q =>
    rw [hr] at h
    simp only [Except.bind] at h
    exact writeNodeAt_err fs q (.file data) e h
  | error e0 =>
    rw [hr] at h
    simp only [Except.bind, Except.error.injEq] at h
    subst h
    exact resolveForOpen_err 40 fs dest e0 hr

theorem materializeFromB_err (folderB diffFs : FSNode) (p : Path) (ty : EntryType) (e : Err)
    (h : materializeFromB folderB diffFs p ty = .error e) : e.isComparison = false := by
  unfold materializeFromB at h
  cases hd : ensureDir diffFs p.dropLast with
  | error e0 =>
    rw [hd] at h
    simp only [except_bind_err, Except.error.injEq] at h
    subst h
    exact ensureDir_err diffFs p.dropLast e0 hd
  | ok d1 =>
    rw [hd] at h
    simp only [except_bind_ok] at h
    by_cases hs : isSymlink folderB p
    · simp only [hs, if_pos] at h
      cases hrl : readlink folderB p with
      | error e0 =>
        rw [hrl] at h
        simp only [except_bind_err, Except.error.injEq] at h
        subst h
        exact readlink_err folderB p e0 hrl
      | ok t =>
        rw [hrl] at h
        simp only [except_bind_ok] at h
        exact symlinkCreate_err d1 t p e h
    · simp only [hs, if_neg, Bool.false_eq_true, if_false] at h
      by_cases h2 : ty = EntryType.directory
      · simp only [h2, if_pos] at h
        exact fsCopy_err folderB p d1 p e h
      · simp only [h2, if_false] at h
        by_cases h3 : ty = EntryType.file
        · simp only [h3, if_pos] at h
          exact fsCopy_err folderB p d1 p e h
        · simp only [h3, if_false] at h
          simp at h

theorem processEntry_invalid (folderB : FSNode) (acc : FSNode × List Path) (e : Entry)
    (h : isInvalidEntry e = true) :
    processEntry folderB acc e = .error (.invalidEntry e) := by
  unfold isInvalidEntry at h
  unfold processEntry
  cases hN : eitherNameOf e with
  | none => cases hR : e.relativePath <;> simp [hN, hR]
  | some n =>
    cases hR : e.relativePath with
    | none => simp [hN, hR]
    | some rp => rw [hN, hR] at h; simp at h

theorem processEntry_comparison_err (folderB : FSNode) (acc : FSNode × List Path)
    (e : Entry) (err : Err) (h : processEntry folderB acc e = .error err)
    (hc : err.isComparison = true) :
    err = .invalidEntry e ∧ isInvalidEntry e = true := by
  unfold processEntry at h
  cases hN : eitherNameOf e with
  | none =>
    cases hR : e.relativePath <;>
      (simp only [hN, hR] at h; simp only [Except.error.injEq] at h;
       exact ⟨h.symm, by simp [isInvalidEntry, hN]⟩)
  | some n =>
    cases hR : e.relativePath with
    | none =>
      simp only [hN, hR] at h
      simp only [Except.error.injEq] at h
      exact ⟨h.symm, by simp [isInvalidEntry, hR]⟩
    | some rp =>
      simp only [hN, hR] at h
      cases hs : e.state <;> rw [hs] at h
      · simp at h
      · cases hm : materializeFromB folderB acc.1 (rp ++ [n]) e.type2 with
        | ok d => rw [hm] at h; simp [except_map_ok] at h
        | error e0 =>
          rw [hm] at h
          simp only [except_map_err, Except.error.injEq] at h
          rcases h with rfl
          have hfalse := materializeFromB_err folderB acc.1 (rp ++ [n]) e.type2 e0 hm
          simp [hfalse] at hc
      · cases hm : materializeFromB folderB acc.1 (rp ++ [n]) e.type2 with
        | ok d => rw [hm] at h; simp [except_map_ok] at h
        | error e0 =>
          rw [hm] at h
          simp only [except_map_err, Except.error.injEq] at h
          rcases h with rfl
          have hfalse := materializeFromB_err folderB acc.1 (rp ++ [n]) e.type2 e0 hm
          simp [hfalse] at hc
      · simp at h

theorem foldlM_err_of_invalid (folderB : FSNode) :
    (entries : List Entry) → (acc : FSNode × List Path) → (e : Entry) → e ∈ entries →
    isInvalidEntry e = true →
    (entries.foldlM (processEntry folderB) acc).isOk = false
  | [], acc, e, he, hi => by simp at he
  | x :: xs, acc, e, he, hi => by
    rw [List.foldlM_cons]
    cases hp : processEntry folderB acc x with
    | error e0 => simp [except_bind_err, Except.isOk, Except.toBool]
    | ok a =>
      simp only [except_bind_ok]
      rcases List.mem_cons.mp he with rfl | hmem
      · exact absurd hp (by simp [processEntry_invalid folderB acc e hi])
      · exact foldlM_err_of_invalid folderB xs a e hmem hi

theorem foldlM_comparison_err (folderB : FSNode) :
    (entries : List Entry) → (acc : FSNode × List Path) → (err : Err) →
    entries.foldlM (processEntry folderB) acc = .error err → err.isComparison = true →
    ∃ e, e ∈ entries ∧ err = .invalidEntry e ∧ isInvalidEntry e = true
  | [], acc, err, h, hc => by simp [List.foldlM_nil, pure, Except.pure] at h
  | x :: xs, acc, err, h, hc => by
    rw [List.foldlM_cons] at h
    cases hp : processEntry folderB acc x with
    | error e0 =>
      rw [hp] at h
      simp only [except_bind_err, Except.error.injEq] at h
      rcases h with rfl
      obtain ⟨heq, hinv⟩ := processEntry_comparison_err folderB acc x e0 hp hc
      exact ⟨x, List.mem_cons_self x xs, heq, hinv⟩
    | ok a =>
      rw [hp] at h
      simp only [except_bind_ok] at h
      obtain ⟨e, he, h1, h2⟩ := foldlM_comparison_err folderB xs a err h hc
      exact ⟨e, List.mem_cons_of_mem x he, h1, h2⟩

theorem restoreDiff_trace_shape (target diff : FSNode) (mp : Path) (fs2 : FSNode)
    (trace : List Event) (h : restoreDiff target diff mp = .ok (fs2, trace)) :
    ∃ removedItems ws, readRemoved diff mp = .ok removedItems ∧
      walkEntriesOf diff (applyRemovals target removedItems).1 = .ok (fs2, ws) ∧
      trace = (applyRemovals target removedItems).2.map Event.removal ++
        ws.map Event.replay := by
  unfold restoreDiff at h
  cases hr : readRemoved diff mp with
  | error e => rw [hr] at h; simp [except_bind_err] at h
  | ok items =>
    rw [hr] at h
    simp only [except_bind_ok] at h
    cases hw : walkEntriesOf diff (applyRemovals target items).1 with
    | error e => rw [hw] at h; simp [except_map_err] at h
    | ok r =>
      rw [hw] at h
      simp only [except_map_ok, Except.ok.injEq, Prod.mk.injEq] at h
      refine ⟨items, r.2, rfl, ?_, h.2.symm⟩
      rw [hw, ← h.1]

theorem trace_removal_index_lt (as : List Path) (ws : List ReplayEvent) (i j : Nat)
    (hi : i < (as.map Event.removal ++ ws.map Event.replay).length)
    (hj : j < (as.map Event.removal ++ ws.map Event.replay).length)
    (h1 : ((as.map Event.removal ++ ws.map Event.replay).get ⟨i, hi⟩).isRemoval = true)
    (h2 : ((as.map Event.removal ++ ws.map Event.replay).get ⟨j, hj⟩).isRemoval = false) :
    i < j := by
  have hlen : (as.map Event.removal ++ ws.map Event.replay).length
      = as.length + ws.length := by simp
  have hilt : i < as.length := by
    by_contra hge
    push_neg at hge
    have hge' : (as.map Event.removal).length ≤ i := by simpa using hge
    rw [List.get_eq_getElem, List.getElem_append_right hge'] at h1
    have : i - (as.map Event.removal).length < (ws.map Event.replay).length := by
      simp at hi ⊢
      omega
    rw [List.getElem_map] at h1
    simp [Event.isRemoval] at h1
  have hjge : as.length ≤ j := by
    by_contra hlt
    push_neg at hlt
    have hlt' : j < (as.map Event.removal).length := by simpa using hlt
    rw [List.get_eq_getElem, List.getElem_append_left hlt'] at h2
    rw [List.getElem_map] at h2
    simp [Event.isRemoval] at h2
  omega

theorem pathExistsFuel_none (fuel : Nat) (fs : FSNode) (p : Path)
    (h : lookupNode fs p = none) : pathExistsFuel fuel fs p = false := by
  cases fuel with
  | zero => rfl
  | succ f => simp [pathExistsFuel, h]

theorem pathExists_none (fs : FSNode) (p : Path) (h : lookupNode fs p = none) :
    pathExists fs p = false :=
  pathExistsFuel_none 40 fs p h

theorem resolveForOpen_one_hop (fuel : Nat) (fs : FSNode) (p t : Path)
    (hfuel : 2 ≤ fuel) (hp : lookupNode fs p = some (.symlink t))
    (hq : lookupNode fs (p.dropLast ++ t) = none ∨
          ∃ d, lookupNode fs (p.dropLast ++ t) = some (.file d)) :
    resolveForOpen fuel fs p = .ok (p.dropLast ++ t) := by
  obtain ⟨f, rfl⟩ : ∃ f, fuel = f + 2 := ⟨fuel - 2, by omega⟩
  rcases hq with hq | ⟨d, hq⟩
  · show resolveForOpen (f + 1 + 1) fs p = _
    rw [resolveForOpen, hp]
    show resolveForOpen (f + 1) fs _ = _
    rw [resolveForOpen, hq]
  · show resolveForOpen (f + 1 + 1) fs p = _
    rw [resolveForOpen, hp]
    show resolveForOpen (f + 1) fs _ = _
    rw [resolveForOpen, hq]

theorem copyFileTo_through_symlink (fs fs2 : FSNode) (p t : Path) (c : FileData)
    (hp : lookupNode fs p = some (.symlink t))
    (hq : lookupNode fs (p.dropLast ++ t) = none ∨
          ∃ d, lookupNode fs (p.dropLast ++ t) = some (.file d))
    (hw : writeNodeAt fs (p.dropLast ++ t) (.file c) = .ok fs2) :
    copyFileTo fs p c = .ok fs2 ∧ lstat fs2 p = some (.symlinkK t) ∧
      lstat fs2 (p.dropLast ++ t) = some (.fileK c) := by
  have hnp : ∀ s, p ≠ (p.dropLast ++ t) ++ s := by
    intro s hs
    rcases hq with hq0 | ⟨d, hq0⟩
    · rw [hs, lookupNode_append] at hp
      rw [hq0] at hp
      simp at hp
    · cases s with
      | nil =>
        rw [List.append_nil] at hs
        rw [hs, hq0] at hp
        simp at hp
      | cons s0 s1 =>
        rw [hs, lookupNode_append] at hp
        rw [hq0] at hp
        simp [lookupNode] at hp
  refine ⟨?_, ?_, ?_⟩
  · unfold copyFileTo
    rw [resolveForOpen_one_hop 40 fs p t (by omega) hp hq]
    simp only [Except.bind]
    exact hw
  · rw [lstat_writeNodeAt_other (p.dropLast ++ t) fs fs2 (.file c) p hw hnp]
    simp [lstat, hp, nodeKind]
  · exact lstat_writeNodeAt_self (p.dropLast ++ t) fs fs2 (.file c) hw

theorem removeStep_absent (fs : FSNode) (p : Path) (h : pathExists fs p = false) :
    removeStep fs p = fs := by
  simp [removeStep, h]

theorem removeStep_removes (fs : FSNode) (p : Path) (hne : p ≠ [])
    (h : pathExists fs p = true) : lstat (removeStep fs p) p = none := by
  simp [removeStep, h, lstat, lookup_removePath_self p fs hne]

theorem applyRemovals_foldl : (ps : List Path) → (fs : FSNode) → (l : List Path) →
    (ps.foldl
      (fun acc p =>
        (removeStep acc.1 p, if pathExists acc.1 p then acc.2 ++ [p] else acc.2))
      (fs, l)).1 = ps.foldl removeStep fs
  | [], fs, l => rfl
  | p :: ps, fs, l => by
    simp only [List.foldl_cons]
    exact applyRemovals_foldl ps (removeStep fs p) _

theorem restoreDiff_no_manifest (target diff : FSNode) (mp : Path)
    (hmp : lookupNode diff mp = none) :
    readRemoved diff mp = .ok [] ∧
    ∀ fs2 trace, restoreDiff target diff mp = .ok (fs2, trace) →
      ∀ ev ∈ trace, ev.isRemoval = false := by
  have hre : readRemoved diff mp = .ok [] := by
    unfold readRemoved
    rw [pathExists_none diff mp hmp]
    simp
  refine ⟨hre, ?_⟩
  intro fs2 trace h ev hev
  obtain ⟨items, ws, hitems, hwalk, htr⟩ :=
    restoreDiff_trace_shape target diff mp fs2 trace h
  rw [hre] at hitems
  injection hitems with hi
  subst hi
  rw [htr] at hev
  simp only [applyRemovals, List.foldl_nil, List.map_nil, List.nil_append] at hev
  obtain ⟨w, hw, hev2⟩ := List.mem_map.mp hev
  rw [← hev2]
  rfl

/-- C1: round-trip convergence fails on the code.  On the spec's own
concrete scenario (section 8 of the spec: A holds file1/file2, B holds
modified file1 and new file3), `createDiff` followed by `restoreDiff`
produces a tree that matches B on every real file but additionally
contains the reserved manifest file `__folder-diff-metadata.json`, which B
does not, because the replay walk never applies the exclusion filter it
defines.  Hence the restored tree is not structurally and content-equal
to B. -/
theorem c1_roundtrip_copies_manifest :
    ((createDiff treeB cmpAB).bind
        (fun dr => restoreDiff treeA dr.1 [reservedName])).map
        (fun r => (lstat r.1 ["file1.txt"], lstat r.1 ["file2.txt"],
          lstat r.1 ["file3.txt"], lstat r.1 [reservedName]))
      = .ok (some (.fileK (.bytes "Modified content")), none,
          some (.fileK (.bytes "New file")),
          some (.fileK (.jsonManifest (some [["file2.txt"]]))))
    ∧ lstat treeB [reservedName] = none := ⟨rfl, rfl⟩

/-- C2: the reserved manifest file IS copied into the target tree.
Applying a diff folder that holds only the manifest to an empty target
leaves a copy of the manifest in the target: the walk in restoreDiff.ts
defines the exclusion `filter` but never invokes it. -/
theorem c2_manifest_copied_into_target :
    (restoreDiff (.dir .nil) diffOnlyManifest [reservedName]).map
        (fun r => lstat r.1 [reservedName])
      = .ok (some (.fileK (.jsonManifest (some [["x.txt"]])))) := rfl

/-- C3: replay is not idempotent for a dangling symlink.  The first apply
of a diff holding the symlink `link.txt -> missing.txt` onto an empty
target succeeds and creates the dangling link; the second apply fails with
EEXIST, because `fs.pathExists` follows the link, reports false, the
remove-existing step is skipped, and `fs.symlink` then hits the existing
link. -/
theorem c3_second_apply_eexist :
    (restoreDiff (.dir .nil) diffDangling [reservedName]).map
        (fun r => lstat r.1 ["link.txt"])
      = .ok (some (.symlinkK ["missing.txt"]))
    ∧ ((restoreDiff (.dir .nil) diffDangling [reservedName]).bind
        (fun r => restoreDiff r.1 diffDangling [reservedName]))
      = .error (.eexist ["link.txt"]) := ⟨rfl, rfl⟩

/-- C4 counterexample: a dangling symlink at a path listed in the removal
manifest is NOT removed.  The removal loop checks `fs.pathExists`, which
follows the link and reports false, so the dangling link survives the
apply — refuting the claim that link-aware existence is used and that a
dangling symlink is removed. -/
theorem c4_counterexample_dangling_survives :
    (restoreDiff targetDangling4 diffRemove4 [reservedName]).map
        (fun r => lstat r.1 ["gone.txt"])
      = .ok (some (.symlinkK ["nowhere.txt"])) := rfl

/-- C4 amended: for every path in the removal list, restoreDiff's removal
step deletes it whenever it exists under LINK-FOLLOWING existence
(`fs.pathExists`); a dangling symlink at the path does not count as
existing and is left in place; absence of a listed path is not an error
(the step is a total no-op); and the removal phase of restoreDiff is
exactly the fold of this step. -/
theorem c4_amended_removal_semantics (fs : FSNode) (p : Path) :
    (pathExists fs p = false → removeStep fs p = fs)
    ∧ (p ≠ [] → pathExists fs p = true → lstat (removeStep fs p) p = none)
    ∧ (∀ t, lookupNode fs p = some (.symlink t) → pathExists fs p = false →
        removeStep fs p = fs)
    ∧ (∀ ps, (applyRemovals fs ps).1 = ps.foldl removeStep fs) :=
  ⟨removeStep_absent fs p,
   removeStep_removes fs p,
   fun _ _ h => removeStep_absent fs p h,
   fun ps => applyRemovals_foldl ps fs []⟩

/-- C4 witness: the amended removal semantics at a concrete input — a real
file a.txt exists, and the removal step deletes it. -/
theorem c4_amended_witness :
    pathExists treeW4 ["a.txt"] = true
    ∧ lstat (removeStep treeW4 ["a.txt"]) ["a.txt"] = none :=
  ⟨rfl, (c4_amended_removal_semantics treeW4 ["a.txt"]).2.1 (by simp) rfl⟩

/-- C5: symlink materialization into the diff folder is faithful (the diff
holds a symlink with exactly B's target string), but the restore half of
the claim fails: when the corresponding target path holds a dangling
symlink, restoreDiff crashes with EEXIST instead of producing the symlink,
because the remove-existing guard uses link-following `fs.pathExists`. -/
theorem c5_symlink_restore_eexist :
    (createDiff treeB5 cmp5).map (fun dr => lstat dr.1 ["link.txt"])
      = .ok (some (.symlinkK ["other.txt"]))
    ∧ (createDiff treeB5 cmp5).bind
        (fun dr => restoreDiff treeA5 dr.1 [reservedName])
      = .error (.eexist ["link.txt"]) := ⟨rfl, rfl⟩

/-- C8 counterexample: a filesystem failure that does NOT abort the build.
With an added entry of unrecognized type whose source path is absent from
tree B, the lstat inside `isSymlink` fails (ENOENT), the failure is caught
and replaced by the substituted value `false`, and `createDiff` completes
successfully. -/
theorem c8_counterexample_lstat_swallowed :
    lstatE (.dir .nil) ["ghost.txt"] = .error (.enoent ["ghost.txt"])
    ∧ isSymlink (.dir .nil) ["ghost.txt"] = false
    ∧ (createDiff (.dir .nil) cmpC8).isOk = true := ⟨rfl, rfl, rfl⟩

/-- C8 amended: every filesystem failure during build propagates except
inside the `isSymlink` helper: a failed lstat there is caught and replaced
by `false`, and the build continues — an entry whose recorded type is
neither file nor directory then completes without error despite the
failure. -/
theorem c8_amended_isSymlink_catches (fs : FSNode) (p : Path) (err : Err)
    (he : lstatE fs p = .error err) :
    isSymlink fs p = false
    ∧ ∀ (acc : FSNode × List Path) (ent : Entry) (n : String) (rp : Path)
        (d1 : FSNode),
        eitherNameOf ent = some n → ent.relativePath = some rp →
        p = rp ++ [n] →
        (ent.state = .right ∨ ent.state = .distinct) →
        ent.type2 ≠ .directory → ent.type2 ≠ .file →
        ensureDir acc.1 rp = .ok d1 →
        processEntry fs acc ent = .ok (d1, acc.2) := by
  have hsym : isSymlink fs p = false := by simp [isSymlink, he]
  refine ⟨hsym, ?_⟩
  intro acc ent n rp d1 hname hrp hpeq hstate ht1 ht2 hens
  subst hpeq
  have hmat : materializeFromB fs acc.1 (rp ++ [n]) ent.type2 = .ok d1 := by
    unfold materializeFromB
    rw [List.dropLast_concat, hens]
    simp only [except_bind_ok]
    rw [hsym]
    simp [ht1, ht2]
  unfold processEntry
  rcases hstate with hs | hs <;> simp [hname, hrp, hs, hmat, except_map_ok]

/-- C8 witness: the amended catch-and-continue property at a concrete
input: tree B is empty, the entry adds ghost.txt with an unrecognized
type, lstat fails, isSymlink yields false, and the entry completes. -/
theorem c8_amended_witness :
    isSymlink (.dir .nil) ["ghost.txt"] = false
    ∧ processEntry (.dir .nil) (FSNode.dir .nil, []) entC8
      = .ok (FSNode.dir .nil, []) := by
  have h := c8_amended_isSymlink_catches (.dir .nil) ["ghost.txt"]
    (.enoent ["ghost.txt"]) rfl
  exact ⟨h.1, h.2 (FSNode.dir .nil, []) entC8 "ghost.txt" [] (FSNode.dir .nil)
    rfl rfl rfl (Or.inl rfl) (by decide) (by decide) rfl⟩

/-- C9: in every restoreDiff call, every manifest-listed deletion is
performed before any addition or modification from the diff folder is
replayed: in the call's action trace, every removal event's index is
strictly below every replay event's index (in particular, a path that is
both removed and re-added is removed first). -/
theorem c9_removals_precede_replay (target diff : FSNode) (mp : Path)
    (fs2 : FSNode) (trace : List Event) (i j : Nat)
    (h : restoreDiff target diff mp = .ok (fs2, trace))
    (hi : i < trace.length) (hj : j < trace.length)
    (hri : (trace.get ⟨i, hi⟩).isRemoval = true)
    (hrj : (trace.get ⟨j, hj⟩).isRemoval = false) :
    i < j := by
  obtain ⟨items, ws, hitems, hwalk, htr⟩ :=
    restoreDiff_trace_shape target diff mp fs2 trace h
  subst htr
  exact trace_removal_index_lt _ ws i j hi hj hri hrj

/-- C9 witness: a concrete run whose trace removes old.txt first and then
replays two files; the removal's index 0 precedes the replay's index 1. -/
theorem c9_witness :
    restoreDiff treeT9 diffD9 [reservedName] = .ok (treeT9Final, traceT9)
    ∧ (0 : Nat) < 1 :=
  ⟨rfl, c9_removals_precede_replay treeT9 diffD9 [reservedName] treeT9Final
    traceT9 0 1 rfl (by decide) (by decide) (by decide) (by decide)⟩

/-- C10: when the diff folder holds a regular file at a path where the
target tree currently holds a symlink, restoreDiff does not replace the
symlink: copyFile opens (hence follows) the destination link and the bytes
land at the link's target — created if the link was dangling — so the
target tree still holds the symlink afterwards.  Stated for the copy
operation at any path, and end-to-end for restoreDiff on a diff folder
holding that one file. -/
theorem c10_file_entry_writes_through_symlink :
    (∀ fs fs2 p t c, lookupNode fs p = some (.symlink t) →
      (lookupNode fs (p.dropLast ++ t) = none ∨
        ∃ d, lookupNode fs (p.dropLast ++ t) = some (.file d)) →
      writeNodeAt fs (p.dropLast ++ t) (.file c) = .ok fs2 →
      copyFileTo fs p c = .ok fs2 ∧ lstat fs2 p = some (.symlinkK t) ∧
        lstat fs2 (p.dropLast ++ t) = some (.fileK c))
    ∧ (∀ es n t c fs2, n ≠ reservedName →
      lookupNode (.dir es) [n] = some (.symlink t) →
      (lookupNode (.dir es) t = none ∨
        ∃ d, lookupNode (.dir es) t = some (.file d)) →
      writeNodeAt (.dir es) t (.file c) = .ok fs2 →
      restoreDiff (.dir es) (.dir (.cons n (.file c) .nil)) [reservedName]
        = .ok (fs2, [.replay (.fileE [n])])
      ∧ lstat fs2 [n] = some (.symlinkK t)
      ∧ lstat fs2 t = some (.fileK c)) := by
  refine ⟨fun fs fs2 p t c hp hq hw =>
    copyFileTo_through_symlink fs fs2 p t c hp hq hw, ?_⟩
  intro es n t c fs2 hn hp hq hw
  obtain ⟨hcopy, hl1, hl2⟩ :=
    copyFileTo_through_symlink (FSNode.dir es) fs2 [n] t c hp hq hw
  have hlookup : lookupNode (FSNode.dir (.cons n (.file c) .nil)) [reservedName]
      = none := by
    simp [lookupNode, FSEntries.find, hn]
  have hread := (restoreDiff_no_manifest (FSNode.dir es)
    (FSNode.dir (.cons n (.file c) .nil)) [reservedName] hlookup).1
  have hwalk : walkEntriesOf (FSNode.dir (.cons n (.file c) .nil)) (FSNode.dir es)
      = .ok (fs2, [.fileE [n]]) := by
    simp [walkEntriesOf, walkEntries, walkNode, ensureDir, hcopy, except_bind_ok]
  refine ⟨?_, hl1, hl2⟩
  unfold restoreDiff
  rw [hread]
  simp only [except_bind_ok, applyRemovals, List.foldl_nil]
  rw [hwalk]
  simp [except_map_ok]

/-- C10 witness: the end-to-end property at a concrete input: the target
holds the dangling link link.txt -> data.txt, the diff holds file bytes at
link.txt, and after restoreDiff the link survives and data.txt holds the
bytes. -/
theorem c10_witness :
    restoreDiff treeT10 diffD10 [reservedName]
      = .ok (treeT10Final, [.replay (.fileE ["link.txt"])])
    ∧ lstat treeT10Final ["link.txt"] = some (.symlinkK ["data.txt"])
    ∧ lstat treeT10Final ["data.txt"] = some (.fileK (.bytes "hello")) :=
  (c10_file_entry_writes_through_symlink).2
    (.cons "link.txt" (.symlink ["data.txt"]) .nil) "link.txt" ["data.txt"]
    (.bytes "hello") treeT10Final (by decide) rfl (Or.inl rfl) rfl

/-- C6: createDiff writes the manifest file at the diff folder's root if
and only if the removal list is non-empty (provided the materialization
phase itself did not create an entry at the reserved path), and its
contents are exactly the removal list; and restoreDiff against a diff
folder lacking a manifest (an absent manifest path) reads an empty removal
list without error and performs zero deletions. -/
theorem c6_manifest_iff_removals (folderB : FSNode)
    (cmp : Except String CompareResult) (entries : List Entry)
    (d0 fsd : FSNode) (removed removed2 : List Path)
    (hc : cmp = .ok ⟨some entries⟩)
    (h0 : processEntries folderB entries = .ok (d0, removed))
    (hm0 : lookupNode d0 [reservedName] = none)
    (h : createDiff folderB cmp = .ok (fsd, removed2)) :
    removed2 = removed
    ∧ ((lookupNode fsd [reservedName] ≠ none) ↔ removed ≠ [])
    ∧ (removed ≠ [] →
        lstat fsd [reservedName] = some (.fileK (.jsonManifest (some removed))))
    ∧ (∀ target mp, lookupNode fsd mp = none →
        readRemoved fsd mp = .ok [] ∧
        ∀ fs2 trace, restoreDiff target fsd mp = .ok (fs2, trace) →
          ∀ ev ∈ trace, ev.isRemoval = false) := by
  subst hc
  simp only [createDiff, compareDirectories, except_bind_ok] at h
  rw [h0] at h
  simp only [except_bind_ok] at h
  by_cases hemp : removed = []
  · subst hemp
    simp only [List.isEmpty_nil, if_true, Except.ok.injEq, Prod.mk.injEq] at h
    obtain ⟨hfsd, hr2⟩ := h
    subst hfsd
    refine ⟨hr2.symm, by simp [hm0], by simp, ?_⟩
    intro target mp hmp
    exact restoreDiff_no_manifest target d0 mp hmp
  · rw [if_neg (by simpa using hemp)] at h
    cases hwm : writeManifest d0 removed with
    | error e0 => rw [hwm] at h; simp [except_bind_err] at h
    | ok d =>
      rw [hwm] at h
      simp only [except_bind_ok, Except.ok.injEq, Prod.mk.injEq] at h
      obtain ⟨hfsd, hr2⟩ := h
      subst hfsd
      have hl := lstat_writeNodeAt_self [reservedName] d0 d
        (.file (.jsonManifest (some removed))) hwm
      refine ⟨hr2.symm, ?_, fun _ => by simpa [nodeKind] using hl, ?_⟩
      · constructor
        · intro _; exact hemp
        · intro _ hnone
          simp [lstat, hnone] at hl
      · intro target mp hmp
        exact restoreDiff_no_manifest target d mp hmp

/-- C6 witness: the biconditional at the spec's concrete scenario — the
removal list is non-empty and the manifest file is present with exactly
that list. -/
theorem c6_witness :
    lstat diffC6Full [reservedName]
      = some (.fileK (.jsonManifest (some [["file2.txt"]]))) :=
  (c6_manifest_iff_removals treeB cmpAB entriesAB diffC6 diffC6Full
    [["file2.txt"]] [["file2.txt"]] rfl rfl rfl rfl).2.2.1 (by simp)

/-- C7 counterexample: the claim's "build fails exactly when the
comparator fails or some entry is structurally invalid" is false at a
comparator result that succeeds but carries no diffSet: the build fails
(with "Comparison result is empty") although the comparator succeeded and
no classified entry exists, let alone an invalid one. -/
theorem c7_counterexample_empty_diffset :
    ¬ claimC7Statement (.dir .nil) (.ok ⟨none⟩) := by
  intro h
  have hfail : (createDiff (FSNode.dir .nil) (.ok ⟨none⟩)).isOk = false := rfl
  rcases h.mp hfail with ⟨m, hm⟩ | ⟨r, entries, e, hr, hds, hmem, hinv⟩
  · exact absurd hm (by simp)
  · injection hr with h2
    rw [← h2] at hds
    simp at hds

/-- C7 amended: the build fails with a comparison-class error exactly when
the comparator fails, the comparison result lacks a diffSet, or some
classified entry is structurally invalid — and an invalid-entry failure
identifies the offending entry (the error carries it); the build can
additionally fail with I/O errors from materialization, which are not
comparison-class. -/
theorem c7_amended_comparison_errors (folderB : FSNode)
    (cmp : Except String CompareResult) :
    (∀ m, cmp = .error m →
      createDiff folderB cmp = .error (.comparatorFailed m))
    ∧ (cmp = .ok ⟨none⟩ → createDiff folderB cmp = .error .emptyResult)
    ∧ (∀ entries e, cmp = .ok ⟨some entries⟩ → e ∈ entries →
        isInvalidEntry e = true → (createDiff folderB cmp).isOk = false)
    ∧ (∀ err, createDiff folderB cmp = .error err → err.isComparison = true →
        (∃ m, cmp = .error m) ∨ cmp = .ok ⟨none⟩ ∨
        (∃ entries e, cmp = .ok ⟨some entries⟩ ∧ e ∈ entries ∧
          err = .invalidEntry e ∧ isInvalidEntry e = true)) := by
  refine ⟨?_, ?_, ?_, ?_⟩
  · intro m hm; subst hm; rfl
  · intro hm; subst hm; rfl
  · intro entries e hc hmem hinv
    subst hc
    have hfold : (processEntries folderB entries).isOk = false :=
      foldlM_err_of_invalid folderB entries (FSNode.dir .nil, []) e hmem hinv
    cases hp : processEntries folderB entries with
    | ok a => rw [hp] at hfold; simp [Except.isOk, Except.toBool] at hfold
    | error e0 =>
      have hcd : createDiff folderB (.ok ⟨some entries⟩) = .error e0 := by
        simp only [createDiff, compareDirectories, except_bind_ok]
        rw [hp]
        simp [except_bind_err]
      rw [hcd]
      rfl
  · intro err hcd hcomp
    cases cmp with
    | error m => exact Or.inl ⟨m, rfl⟩
    | ok r =>
      obtain ⟨ds⟩ := r
      cases ds with
      | none => exact Or.inr (Or.inl rfl)
      | some entries =>
        refine Or.inr (Or.inr ?_)
        simp only [createDiff, compareDirectories, except_bind_ok] at hcd
        cases hp : processEntries folderB entries with
        | error e0 =>
          rw [hp] at hcd
          simp only [except_bind_err, Except.error.injEq] at hcd
          rcases hcd with rfl
          obtain ⟨e, hmem, heq, hinv⟩ :=
            foldlM_comparison_err folderB entries (FSNode.dir .nil, []) e0 hp hcomp
          exact ⟨entries, e, rfl, hmem, heq, hinv⟩
        | ok acc =>
          rw [hp] at hcd
          simp only [except_bind_ok] at hcd
          by_cases hemp : acc.2.isEmpty
          · rw [if_pos hemp] at hcd; simp at hcd
          · rw [if_neg hemp] at hcd
            cases hwm : writeManifest acc.1 acc.2 with
            | ok d => rw [hwm] at hcd; simp [except_bind_ok] at hcd
            | error e1 =>
              rw [hwm] at hcd
              simp only [except_bind_err, Except.error.injEq] at hcd
              rcases hcd with rfl
              have hio := writeNodeAt_err acc.1 [reservedName]
                (.file (.jsonManifest (some acc.2))) e1 hwm
              rw [hio] at hcomp
              exact absurd hcomp (by simp)

/-- C7 amended witness: the empty-diffSet case at a concrete input — the
comparator succeeded, the result has no diffSet, and the build fails with
the empty-result comparison error. -/
theorem c7_amended_witness :
    createDiff (FSNode.dir .nil) (.ok ⟨none⟩) = .error .emptyResult :=
  (c7_amended_comparison_errors (FSNode.dir .nil) (.ok ⟨none⟩)).2.1 rfl

end FolderDiff
